import Mathlib

/-!
Shallow embedding of the Selective-Repeat core in src/sr.c.

C arrays of size WINDOWSIZE are modelled as total maps `Int → _`: every
array access of the C code is recorded at exactly the index expression the
source computes (the source indexes with `% SEQSPACE` and with raw sequence
numbers, so the model makes the resulting indices observable; whether those
indices stay inside [0, WINDOWSIZE) is itself one of the verified claims).
C `int` is modelled as `Int` (`%` on `Int` is `Int.emod`, which agrees with
C's cast `(unsigned char)x` as `x % 256` and is nonnegative).  The two
C `for`-loops bounded by `A_base ≤ i < A_nextseq` are translated with fuel
`(A_nextseq - A_base).toNat`, the exact iteration count of the source.  The
two `while`-loops (`slide`, `B_drain`) read and clear only the slot at
`base % SEQSPACE` before incrementing `base`; after SEQSPACE iterations the
slot inspected is one already cleared, so the C loop never runs more than
SEQSPACE iterations from any state and fuel SEQSPACE is exact, not an
approximation (`slide_fuel_exact`, `B_drain_fuel_exact` below prove this).
Calls to the emulator (tolayer3, starttimer, stoptimer) are returned as an
event list; tolayer5 deliveries are returned as a list of pairs whose first
component is the ghost logical position: the value of `B_base` at the moment
of the delivery.
-/

def WINDOWSIZE : Int := 6

def SEQSPACE : Int := 7

def NOTINUSE : Int := -1

/-- Protocol unit, struct pkt of emulator.h: int seqnum, int acknum,
int checksum, char payload[20] (the payload map is read at 0..19). -/
structure Pkt where
  seqnum : Int
  acknum : Int
  checksum : Int
  payload : Nat → Int

/-- Application message, struct msg: char data[20]. -/
structure Msg where
  data : Nat → Int

/-- src/sr.c lines 27-35: sum = seqnum + acknum, then for i in 0..19 add
(unsigned char)payload[i], i.e. payload[i] mod 256. -/
def ComputeChecksum (p : Pkt) : Int :=
  (List.range 20).foldl (fun sum i => sum + (p.payload i) % 256) (p.seqnum + p.acknum)

/-- src/sr.c lines 37-43: nonzero iff the stored checksum differs from the
recomputed one. -/
def IsCorrupted (p : Pkt) : Bool :=
  if p.checksum = ComputeChecksum p then false else true

/-- Pointwise array update, the model of a C array store. -/
def upd {α : Type} (f : Int → α) (i : Int) (v : α) : Int → α :=
  fun j => if j = i then v else f j

/-- All-zero packet: the initial contents of a zero-initialized C global
array of struct pkt. -/
def zeroPkt : Pkt :=
  { seqnum := 0, acknum := 0, checksum := 0, payload := fun _ => 0 }

/-- Sender state, src/sr.c lines 13-18, plus the emulator counters the
sender code increments (window_full, total_ACKs_received, packets_resent). -/
structure AState where
  A_window : Int → Pkt
  A_acked : Int → Bool
  A_timer_running : Int → Bool
  A_base : Int
  A_nextseq : Int
  window_full : Int
  total_ACKs_received : Int
  packets_resent : Int

/-- Emulator calls the sender makes, in program order. -/
inductive AEv where
  | send : Pkt → AEv
  | start : AEv
  | stop : AEv

/-- A_init, src/sr.c lines 47-56 (globals start zero-initialized). -/
def Ainit : AState :=
  { A_window := fun _ => zeroPkt
    A_acked := fun _ => false
    A_timer_running := fun _ => false
    A_base := 0
    A_nextseq := 0
    window_full := 0
    total_ACKs_received := 0
    packets_resent := 0 }

/-- The membership scan both `for (i = lo; i < hi; i++) if (x == i % SEQSPACE)`
loops perform, with fuel = hi - lo: true iff some i in [lo, lo+fuel) has
x = i % SEQSPACE.  In src/sr.c the A_input loop breaks at the first match and
its body depends only on `ack`, never on `i`, so running the body once on any
match is the same as running it on the first. -/
def scanMatch (x : Int) : Int → Nat → Bool
  | _, 0 => false
  | i, n + 1 => if x = i % SEQSPACE then true else scanMatch x (i + 1) n

/-- The base-sliding while loop, src/sr.c lines 110-113:
while (A_acked[A_base % SEQSPACE]) { A_acked[A_base % SEQSPACE] = 0; A_base++; }
run with the given fuel. -/
def slide (a : Int → Bool) (b : Int) : Nat → (Int → Bool) × Int
  | 0 => (a, b)
  | n + 1 =>
    if a (b % SEQSPACE) = true then slide (upd a (b % SEQSPACE) false) (b + 1) n
    else (a, b)

/-- A_output, src/sr.c lines 59-85. -/
def A_output (s : AState) (m : Msg) : AState × List AEv :=
  if s.A_nextseq < s.A_base + WINDOWSIZE then
    let seq := s.A_nextseq % SEQSPACE
    let q : Pkt := { seqnum := seq, acknum := NOTINUSE, checksum := 0, payload := m.data }
    let p : Pkt := { q with checksum := ComputeChecksum q }
    let s1 : AState := { s with A_window := upd s.A_window seq p, A_acked := upd s.A_acked seq false }
    if s1.A_timer_running seq = false then
      ({ s1 with A_timer_running := upd s1.A_timer_running seq true, A_nextseq := s1.A_nextseq + 1 },
       [AEv.send p, AEv.start])
    else
      ({ s1 with A_nextseq := s1.A_nextseq + 1 }, [AEv.send p])
  else
    ({ s with window_full := s.window_full + 1 }, [])

/-- A_input, src/sr.c lines 88-118.  The search loop is `scanMatch` over
[A_base, A_nextseq); on a match the body uses idx = ack itself. -/
def A_input (s : AState) (p : Pkt) : AState × List AEv :=
  if IsCorrupted p = true then (s, [])
  else if scanMatch p.acknum s.A_base (s.A_nextseq - s.A_base).toNat = true then
    if s.A_acked p.acknum = true then (s, [])
    else
      let s1 : AState := { s with A_acked := upd s.A_acked p.acknum true,
                                  total_ACKs_received := s.total_ACKs_received + 1 }
      let s2 : AState :=
        if s1.A_timer_running p.acknum = true then
          { s1 with A_timer_running := upd s1.A_timer_running p.acknum false }
        else s1
      let evs : List AEv := if s1.A_timer_running p.acknum = true then [AEv.stop] else []
      let r := slide s2.A_acked s2.A_base SEQSPACE.toNat
      ({ s2 with A_acked := r.1, A_base := r.2 }, evs)
  else (s, [])

/-- The retransmission loop of A_timerinterrupt, src/sr.c lines 128-139,
iterating i over [i0, i0+fuel). -/
def resendLoop (s : AState) : Int → Nat → AState × List AEv
  | _, 0 => (s, [])
  | i, n + 1 =>
    let idx := i % SEQSPACE
    if s.A_acked idx = false then
      let evs : List AEv :=
        AEv.send (s.A_window idx) :: (if s.A_timer_running idx = true then [AEv.stop] else []) ++ [AEv.start]
      let s1 : AState := { s with A_timer_running := upd s.A_timer_running idx true,
                                  packets_resent := s.packets_resent + 1 }
      let r := resendLoop s1 (i + 1) n
      (r.1, evs ++ r.2)
    else resendLoop s (i + 1) n

/-- A_timerinterrupt, src/sr.c lines 121-140. -/
def A_timerinterrupt (s : AState) : AState × List AEv :=
  resendLoop s s.A_base (s.A_nextseq - s.A_base).toNat

/-- One sender entry-point invocation. -/
inductive AOp where
  | output : Msg → AOp
  | input : Pkt → AOp
  | timeout : AOp

def Astep (s : AState) : AOp → AState × List AEv
  | AOp.output m => A_output s m
  | AOp.input p => A_input s p
  | AOp.timeout => A_timerinterrupt s

/-- Run a sequence of sender calls from a state, collecting all emulator
events in order. -/
def ArunTrace : AState → List AOp → AState × List AEv
  | s, [] => (s, [])
  | s, op :: ops =>
    let r := Astep s op
    let rest := ArunTrace r.1 ops
    (rest.1, r.2 ++ rest.2)

def Arun (s : AState) (ops : List AOp) : AState :=
  (ArunTrace s ops).1

/-- The data packets among a list of sender events (the tolayer3 calls). -/
def sentOf (evs : List AEv) : List Pkt :=
  evs.filterMap (fun e => match e with | AEv.send p => some p | _ => none)

/-- Receiver state, src/sr.c lines 20-23. -/
structure BState where
  B_buffer : Int → Pkt
  B_received : Int → Bool
  B_base : Int

/-- B_init, src/sr.c lines 144-151. -/
def Binit : BState :=
  { B_buffer := fun _ => zeroPkt, B_received := fun _ => false, B_base := 0 }

/-- The acknowledgment packet B_input builds, src/sr.c lines 162-166 and
194-195: seqnum = NOTINUSE, the given acknum, payload zeroed by memset,
checksum recomputed over those fields. -/
def mkAck (a : Int) : Pkt :=
  let q : Pkt := { seqnum := NOTINUSE, acknum := a, checksum := 0, payload := fun _ => 0 }
  { q with checksum := ComputeChecksum q }

/-- The delivery while loop, src/sr.c lines 200-205:
while (B_received[B_base % SEQSPACE]) { tolayer5(payload); clear; B_base++; }
Each delivered payload is paired with the ghost logical position, the value
of B_base at the moment tolayer5 is called. -/
def B_drain (s : BState) : Nat → BState × List (Int × (Nat → Int))
  | 0 => (s, [])
  | n + 1 =>
    if s.B_received (s.B_base % SEQSPACE) = true then
      let idx := s.B_base % SEQSPACE
      let s1 : BState := { s with B_received := upd s.B_received idx false, B_base := s.B_base + 1 }
      let r := B_drain s1 n
      (r.1, (s.B_base, (s.B_buffer idx).payload) :: r.2)
    else (s, [])

/-- B_input, src/sr.c lines 154-206: (new state, ACKs sent, payloads
delivered).  The in-window scan is the loop at lines 170-175; an accepted
packet is buffered at index packet.seqnum (line 178). -/
def B_input (s : BState) (p : Pkt) : BState × List Pkt × List (Int × (Nat → Int)) :=
  let inWindow := scanMatch p.seqnum s.B_base WINDOWSIZE.toNat
  if IsCorrupted p = false ∧ inWindow = true then
    let idx := p.seqnum
    let s1 : BState :=
      if s.B_received idx = true then s
      else { s with B_buffer := upd s.B_buffer idx p, B_received := upd s.B_received idx true }
    let r := B_drain s1 SEQSPACE.toNat
    (r.1, [mkAck p.seqnum], r.2)
  else
    let lastack : Int := if s.B_base = 0 then SEQSPACE - 1 else (s.B_base - 1) % SEQSPACE
    let r := B_drain s SEQSPACE.toNat
    (r.1, [mkAck lastack], r.2)

/-- Run a sequence of B_input calls, collecting all deliveries in order. -/
def Brun : BState → List Pkt → BState × List (Int × (Nat → Int))
  | s, [] => (s, [])
  | s, p :: ps =>
    let r := B_input s p
    let rest := Brun r.1 ps
    (rest.1, r.2.2 ++ rest.2)

/-- The integer interval [b, b+n) as a list, b, b+1, ..., b+n-1. -/
def intRange (b : Int) : Nat → List Int
  | 0 => []
  | n + 1 => b :: intRange (b + 1) n

/-- Whether an event list ever issues a start while the single shared
emulator timer is already running (first argument: is it running now). -/
def badStart : Bool → List AEv → Bool
  | _, [] => false
  | b, AEv.start :: evs => b || badStart true evs
  | _, AEv.stop :: evs => badStart false evs
  | b, AEv.send _ :: evs => badStart b evs

/-- The all-zero application message. -/
def mZero : Msg := { data := fun _ => 0 }

/-- A packet whose stored checksum does not match its contents. -/
def badPkt : Pkt := { seqnum := 0, acknum := 0, checksum := 12345, payload := fun _ => 0 }

/-- Two submissions. -/
def twoOuts : List AOp := [AOp.output mZero, AOp.output mZero]

/-- Six submissions, filling the window. -/
def sixOuts : List AOp :=
  [AOp.output mZero, AOp.output mZero, AOp.output mZero,
   AOp.output mZero, AOp.output mZero, AOp.output mZero]

/-- Six submissions followed by the acknowledgment for sequence number 0:
after this run A_base = 1 and A_nextseq = 6, so the window check of a
seventh submission passes and its slot index is 6 % SEQSPACE = 6. -/
def oobTrace : List AOp :=
  [AOp.output mZero, AOp.output mZero, AOp.output mZero, AOp.output mZero,
   AOp.output mZero, AOp.output mZero, AOp.input (mkAck 0)]

/-- Reachability invariant of the sender: the window never over-commits and
every set acked flag belongs to some in-flight logical sequence number. -/
def AInv (s : AState) : Prop :=
  0 ≤ s.A_nextseq - s.A_base ∧ s.A_nextseq - s.A_base ≤ WINDOWSIZE ∧
  ∀ r, s.A_acked r = true → ∃ i : Int, s.A_base ≤ i ∧ i < s.A_nextseq ∧ r = i % SEQSPACE

/-! ### Helper lemmas -/

theorem upd_same {α : Type} (f : Int → α) (i : Int) (v : α) : upd f i v i = v := by
  simp [upd]

theorem upd_ne {α : Type} (f : Int → α) {i j : Int} (v : α) (h : j ≠ i) : upd f i v j = f j := by
  simp [upd, h]

theorem scanMatch_iff : ∀ (n : Nat) (x b : Int),
    scanMatch x b n = true ↔ ∃ i : Int, b ≤ i ∧ i < b + n ∧ x = i % SEQSPACE := by
  intro n
  induction n with
  | zero =>
    intro x b
    simp only [scanMatch]
    constructor
    · intro h; cases h
    · rintro ⟨i, h1, h2, _⟩
      exfalso; push_cast at h2; omega
  | succ n ih =>
    intro x b
    simp only [scanMatch]
    split_ifs with h
    · constructor
      · intro _
        exact ⟨b, le_refl b, by push_cast; omega, h⟩
      · intro _; rfl
    · rw [ih]
      constructor
      · rintro ⟨i, h1, h2, h3⟩
        exact ⟨i, by omega, by push_cast at h2 ⊢; omega, h3⟩
      · rintro ⟨i, h1, h2, h3⟩
        refine ⟨i, ?_, by push_cast at h2 ⊢; omega, h3⟩
        rcases eq_or_lt_of_le h1 with he | hl
        · exfalso; rw [← he] at h3; exact h h3
        · omega

theorem slide_base_le : ∀ (n : Nat) (a : Int → Bool) (b : Int), b ≤ (slide a b n).2 := by
  intro n
  induction n with
  | zero => intro a b; exact le_refl b
  | succ n ih =>
    intro a b
    simp only [slide]
    split_ifs with h
    · exact le_trans (by omega) (ih _ (b + 1))
    · exact le_refl b

theorem slide_clear_mono : ∀ (n : Nat) (a : Int → Bool) (b r : Int),
    a r = false → (slide a b n).1 r = false := by
  intro n
  induction n with
  | zero => intro a b r h; exact h
  | succ n ih =>
    intro a b r h
    simp only [slide]
    split_ifs with hg
    · apply ih
      by_cases hr : r = b % SEQSPACE
      · simp [upd, hr]
      · simp [upd, hr, h]
    · exact h

theorem slide_guard : ∀ (n : Nat) (a : Int → Bool) (b : Int),
    (slide a b n).1 ((slide a b n).2 % SEQSPACE) = false ∨
    ((slide a b n).2 = b + n ∧
      ∀ j : Int, 0 ≤ j → j < n → (slide a b n).1 ((b + j) % SEQSPACE) = false) := by
  intro n
  induction n with
  | zero =>
    intro a b
    right
    refine ⟨by simp [slide], ?_⟩
    intro j h1 h2; exfalso; push_cast at h2; omega
  | succ n ih =>
    intro a b
    simp only [slide]
    split_ifs with hg
    · rcases ih (upd a (b % SEQSPACE) false) (b + 1) with hL | ⟨hbase, hclr⟩
      · left; exact hL
      · right
        constructor
        · rw [hbase]; push_cast; ring
        · intro j h1 h2
          by_cases hj : j = 0
          · subst hj
            have h0 : b + (0 : Int) = b := by ring
            rw [h0]
            exact slide_clear_mono _ _ _ _ (by simp [upd])
          · have hc := hclr (j - 1) (by omega) (by push_cast at h2 ⊢; omega)
            have harg : b + 1 + (j - 1) = b + j := by ring
            rw [harg] at hc
            exact hc
    · left; simpa using hg

theorem slide_fuel_exact (a : Int → Bool) (b : Int) :
    (slide a b SEQSPACE.toNat).1 ((slide a b SEQSPACE.toNat).2 % SEQSPACE) = false := by
  rcases slide_guard SEQSPACE.toNat a b with h | ⟨hb, hc⟩
  · exact h
  · have hc0 := hc 0 (le_refl 0) (by simp [SEQSPACE])
    rw [hb]
    have e : (b + ((SEQSPACE.toNat : Nat) : Int)) % SEQSPACE = (b + 0) % SEQSPACE := by
      simp only [SEQSPACE]; omega
    rw [e]
    exact hc0

theorem emod7_shift_ne (b j : Int) (h1 : 1 ≤ j) (h2 : j < 7) :
    (b + j) % SEQSPACE ≠ b % SEQSPACE := by
  simp only [SEQSPACE]
  omega

theorem slide_char : ∀ (n : Nat) (a : Int → Bool) (b : Int), (n : Int) ≤ 7 →
    ∃ k : Int, 0 ≤ k ∧ k ≤ n ∧ (slide a b n).2 = b + k ∧
      (∀ j : Int, 0 ≤ j → j < k → a ((b + j) % SEQSPACE) = true) ∧
      (k < n → a ((b + k) % SEQSPACE) = false) ∧
      (∀ j : Int, 0 ≤ j → j < k → (slide a b n).1 ((b + j) % SEQSPACE) = false) := by
  intro n
  induction n with
  | zero =>
    intro a b _
    refine ⟨0, le_refl 0, by simp, by simp [slide], ?_, ?_, ?_⟩
    · intro j h1 h2; exfalso; omega
    · intro h; exfalso; omega
    · intro j h1 h2; exfalso; omega
  | succ n ih =>
    intro a b hn
    simp only [slide]
    split_ifs with hg
    · obtain ⟨k', hk0, hkn, hbase, hrun, hmax, hclr⟩ :=
        ih (upd a (b % SEQSPACE) false) (b + 1) (by push_cast at hn ⊢; omega)
      refine ⟨k' + 1, by omega, by push_cast at hkn ⊢; omega, ?_, ?_, ?_, ?_⟩
      · rw [hbase]; ring
      · intro j h1 h2
        by_cases hj : j = 0
        · subst hj
          have h0 : b + (0 : Int) = b := by ring
          rw [h0]; exact hg
        · have hr := hrun (j - 1) (by omega) (by omega)
          have harg : b + 1 + (j - 1) = b + j := by ring
          rw [harg] at hr
          have hne : (b + j) % SEQSPACE ≠ b % SEQSPACE :=
            emod7_shift_ne b j (by omega) (by push_cast at hn ⊢; omega)
          rwa [upd_ne _ _ hne] at hr
      · intro hlt
        have hm := hmax (by push_cast at hlt ⊢; omega)
        have harg : b + 1 + k' = b + (k' + 1) := by ring
        rw [harg] at hm
        have hne : (b + (k' + 1)) % SEQSPACE ≠ b % SEQSPACE :=
          emod7_shift_ne b (k' + 1) (by omega) (by push_cast at hn hlt ⊢; omega)
        rwa [upd_ne _ _ hne] at hm
      · intro j h1 h2
        by_cases hj : j = 0
        · subst hj
          have h0 : b + (0 : Int) = b := by ring
          rw [h0]
          exact slide_clear_mono _ _ _ _ (by simp [upd])
        · have hc := hclr (j - 1) (by omega) (by omega)
          have harg : b + 1 + (j - 1) = b + j := by ring
          rw [harg] at hc
          exact hc
    · refine ⟨0, le_refl 0, by push_cast; omega, by ring, ?_, ?_, ?_⟩
      · intro j h1 h2; exfalso; omega
      · intro _
        have h0 : b + (0 : Int) = b := by ring
        rw [h0]; simpa using hg
      · intro j h1 h2; exfalso; omega

theorem slide_wf : ∀ (n : Nat) (a : Int → Bool) (b N : Int),
    b ≤ N → N - b ≤ 7 →
    (∀ r, a r = true → ∃ i : Int, b ≤ i ∧ i < N ∧ r = i % SEQSPACE) →
    (slide a b n).2 ≤ N ∧
    (∀ r, (slide a b n).1 r = true →
      ∃ i : Int, (slide a b n).2 ≤ i ∧ i < N ∧ r = i % SEQSPACE) := by
  intro n
  induction n with
  | zero => intro a b N h1 _ h3; exact ⟨h1, h3⟩
  | succ n ih =>
    intro a b N h1 h2 h3
    simp only [slide]
    split_ifs with hg
    · obtain ⟨i, hi1, hi2, hi3⟩ := h3 _ hg
      have hib : i = b := by
        have hmod : b % SEQSPACE = i % SEQSPACE := hi3
        simp only [SEQSPACE] at hmod
        omega
      have hbN : b < N := by omega
      apply ih
      · omega
      · omega
      · intro r hr
        have hrb : r ≠ b % SEQSPACE := by
          intro he
          rw [he, upd_same] at hr
          cases hr
        rw [upd_ne _ _ hrb] at hr
        obtain ⟨i', hi1', hi2', hi3'⟩ := h3 r hr
        have : i' ≠ b := by
          intro he
          rw [he] at hi3'
          exact hrb hi3'
        exact ⟨i', by omega, hi2', hi3'⟩
    · exact ⟨h1, h3⟩

theorem B_drain_spec : ∀ (n : Nat) (s : BState),
    (B_drain s n).1.B_base = s.B_base + ((B_drain s n).2).length ∧
    ((B_drain s n).2).map Prod.fst = intRange s.B_base ((B_drain s n).2).length ∧
    (B_drain s n).1.B_buffer = s.B_buffer ∧
    (∀ r : Int, (B_drain s n).1.B_received r = true → s.B_received r = true) := by
  intro n
  induction n with
  | zero =>
    intro s
    refine ⟨by simp [B_drain], by simp [B_drain, intRange], rfl, fun r h => h⟩
  | succ n ih =>
    intro s
    simp only [B_drain]
    split_ifs with hg
    · obtain ⟨ihb, ihm, ihbuf, ihrec⟩ :=
        ih { s with B_received := upd s.B_received (s.B_base % SEQSPACE) false,
                    B_base := s.B_base + 1 }
      refine ⟨?_, ?_, ihbuf, ?_⟩
      · simp only [List.length_cons]
        push_cast
        push_cast at ihb
        omega
      · simp only [List.length_cons, List.map_cons, intRange]
        rw [ihm]
      · intro r h
        have hh := ihrec r h
        by_cases hr : r = s.B_base % SEQSPACE
        · simp [upd, hr] at hh
        · simpa [upd, hr] using hh
    · exact ⟨by simp, by simp [intRange], rfl, fun r h => h⟩

theorem B_drain_clear_mono : ∀ (n : Nat) (s : BState) (r : Int),
    s.B_received r = false → (B_drain s n).1.B_received r = false := by
  intro n
  induction n with
  | zero => intro s r h; exact h
  | succ n ih =>
    intro s r h
    simp only [B_drain]
    split_ifs with hg
    · apply ih
      by_cases hr : r = s.B_base % SEQSPACE
      · simp [upd, hr]
      · simp [upd, hr, h]
    · exact h

theorem B_drain_guard : ∀ (n : Nat) (s : BState),
    (B_drain s n).1.B_received ((B_drain s n).1.B_base % SEQSPACE) = false ∨
    ((B_drain s n).1.B_base = s.B_base + n ∧
      ∀ j : Int, 0 ≤ j → j < n →
        (B_drain s n).1.B_received ((s.B_base + j) % SEQSPACE) = false) := by
  intro n
  induction n with
  | zero =>
    intro s
    right
    refine ⟨by simp [B_drain], ?_⟩
    intro j h1 h2; exfalso; omega
  | succ n ih =>
    intro s
    simp only [B_drain]
    split_ifs with hg
    · rcases ih { s with B_received := upd s.B_received (s.B_base % SEQSPACE) false,
                         B_base := s.B_base + 1 } with hL | ⟨hbase, hclr⟩
      · left; exact hL
      · right
        constructor
        · rw [hbase]; push_cast; ring
        · intro j h1 h2
          by_cases hj : j = 0
          · subst hj
            have h0 : s.B_base + (0 : Int) = s.B_base := by ring
            rw [h0]
            exact B_drain_clear_mono _ _ _ (by simp [upd])
          · have hc := hclr (j - 1) (by omega) (by push_cast at h2 ⊢; omega)
            have harg : s.B_base + 1 + (j - 1) = s.B_base + j := by ring
            rw [harg] at hc
            exact hc
    · left; simpa using hg

theorem B_drain_fuel_exact (s : BState) :
    (B_drain s SEQSPACE.toNat).1.B_received
      ((B_drain s SEQSPACE.toNat).1.B_base % SEQSPACE) = false := by
  rcases B_drain_guard SEQSPACE.toNat s with h | ⟨hb, hc⟩
  · exact h
  · have hc0 := hc 0 (le_refl 0) (by simp [SEQSPACE])
    rw [hb]
    have e : (s.B_base + ((SEQSPACE.toNat : Nat) : Int)) % SEQSPACE
        = (s.B_base + 0) % SEQSPACE := by
      simp only [SEQSPACE]
      omega
    rw [e]
    exact hc0

theorem intRange_append : ∀ (n1 : Nat) (b : Int) (n2 : Nat),
    intRange b n1 ++ intRange (b + n1) n2 = intRange b (n1 + n2) := by
  intro n1
  induction n1 with
  | zero =>
    intro b n2
    simp [intRange]
  | succ n1 ih =>
    intro b n2
    have harg : b + ((n1 : Int) + 1) = b + 1 + n1 := by ring
    simp only [intRange, List.cons_append]
    push_cast
    rw [harg, ih (b + 1) n2]
    have : n1 + 1 + n2 = (n1 + n2) + 1 := by omega
    rw [this]
    simp [intRange]

theorem B_input_positions (s : BState) (p : Pkt) :
    (B_input s p).1.B_base = s.B_base + ((B_input s p).2.2).length ∧
    ((B_input s p).2.2).map Prod.fst = intRange s.B_base ((B_input s p).2.2).length := by
  simp only [B_input]
  split_ifs with h1 h2 h3
  · exact ⟨(B_drain_spec _ s).1, (B_drain_spec _ s).2.1⟩
  · obtain ⟨hb, hm, _, _⟩ := B_drain_spec SEQSPACE.toNat
      { s with B_buffer := upd s.B_buffer p.seqnum p,
               B_received := upd s.B_received p.seqnum true }
    exact ⟨hb, hm⟩
  · exact ⟨(B_drain_spec _ s).1, (B_drain_spec _ s).2.1⟩
  · exact ⟨(B_drain_spec _ s).1, (B_drain_spec _ s).2.1⟩

theorem Brun_positions : ∀ (ps : List Pkt) (s : BState),
    (Brun s ps).1.B_base = s.B_base + ((Brun s ps).2).length ∧
    ((Brun s ps).2).map Prod.fst = intRange s.B_base ((Brun s ps).2).length := by
  intro ps
  induction ps with
  | nil => intro s; exact ⟨by simp [Brun], by simp [Brun, intRange]⟩
  | cons p ps ih =>
    intro s
    obtain ⟨h1, h2⟩ := B_input_positions s p
    obtain ⟨h3, h4⟩ := ih (B_input s p).1
    simp only [Brun]
    constructor
    · rw [List.length_append]
      push_cast
      omega
    · rw [List.map_append, h2, h4, h1, intRange_append, List.length_append]

theorem A_output_mono (s : AState) (m : Msg) :
    s.A_base ≤ (A_output s m).1.A_base ∧ s.A_nextseq ≤ (A_output s m).1.A_nextseq := by
  simp only [A_output]
  split_ifs
  · exact ⟨le_refl _, by show s.A_nextseq ≤ s.A_nextseq + 1; omega⟩
  · exact ⟨le_refl _, by show s.A_nextseq ≤ s.A_nextseq + 1; omega⟩
  · exact ⟨le_refl _, le_refl _⟩

theorem A_input_mono (s : AState) (p : Pkt) :
    s.A_base ≤ (A_input s p).1.A_base ∧ s.A_nextseq ≤ (A_input s p).1.A_nextseq := by
  simp only [A_input]
  split_ifs
  · exact ⟨le_refl _, le_refl _⟩
  · exact ⟨le_refl _, le_refl _⟩
  · exact ⟨slide_base_le _ _ _, le_refl _⟩
  · exact ⟨slide_base_le _ _ _, le_refl _⟩
  · exact ⟨le_refl _, le_refl _⟩

theorem resendLoop_fst_succ (s : AState) (i : Int) (n : Nat) :
    (resendLoop s i (n + 1)).1 =
      if s.A_acked (i % SEQSPACE) = false then
        (resendLoop { s with A_timer_running := upd s.A_timer_running (i % SEQSPACE) true,
                             packets_resent := s.packets_resent + 1 } (i + 1) n).1
      else (resendLoop s (i + 1) n).1 := by
  simp only [resendLoop]
  split_ifs <;> rfl

theorem resendLoop_snd_succ (s : AState) (i : Int) (n : Nat) :
    (resendLoop s i (n + 1)).2 =
      if s.A_acked (i % SEQSPACE) = false then
        (AEv.send (s.A_window (i % SEQSPACE)) ::
          (if s.A_timer_running (i % SEQSPACE) = true then [AEv.stop] else []) ++ [AEv.start]) ++
          (resendLoop { s with A_timer_running := upd s.A_timer_running (i % SEQSPACE) true,
                               packets_resent := s.packets_resent + 1 } (i + 1) n).2
      else (resendLoop s (i + 1) n).2 := by
  simp only [resendLoop]
  split_ifs <;> rfl

theorem resendLoop_frame : ∀ (n : Nat) (s : AState) (i : Int),
    (resendLoop s i n).1.A_base = s.A_base ∧
    (resendLoop s i n).1.A_nextseq = s.A_nextseq ∧
    (resendLoop s i n).1.A_window = s.A_window ∧
    (resendLoop s i n).1.A_acked = s.A_acked := by
  intro n
  induction n with
  | zero => intro s i; exact ⟨rfl, rfl, rfl, rfl⟩
  | succ n ih =>
    intro s i
    rw [resendLoop_fst_succ]
    split_ifs with h
    · exact ih { s with A_timer_running := upd s.A_timer_running (i % SEQSPACE) true,
                        packets_resent := s.packets_resent + 1 } (i + 1)
    · exact ih s (i + 1)

theorem resendLoop_timer_mono : ∀ (n : Nat) (s : AState) (i r : Int),
    s.A_timer_running r = true → (resendLoop s i n).1.A_timer_running r = true := by
  intro n
  induction n with
  | zero => intro s i r h; exact h
  | succ n ih =>
    intro s i r h
    rw [resendLoop_fst_succ]
    split_ifs with hg
    · apply ih
      by_cases hr : r = i % SEQSPACE
      · simp [upd, hr]
      · simp [upd, hr, h]
    · exact ih s (i + 1) r h

theorem resendLoop_sets_timer : ∀ (n : Nat) (s : AState) (i j : Int),
    i ≤ j → j < i + n → s.A_acked (j % SEQSPACE) = false →
    (resendLoop s i n).1.A_timer_running (j % SEQSPACE) = true := by
  intro n
  induction n with
  | zero => intro s i j h1 h2 _; exfalso; omega
  | succ n ih =>
    intro s i j h1 h2 h3
    rw [resendLoop_fst_succ]
    split_ifs with hg
    · by_cases hj : j = i
      · subst hj
        apply resendLoop_timer_mono
        simp [upd]
      · apply ih
        · omega
        · push_cast at h2 ⊢; omega
        · exact h3
    · by_cases hj : j = i
      · exfalso; rw [hj] at h3; exact hg h3
      · exact ih s (i + 1) j (by omega) (by push_cast at h2 ⊢; omega) h3

theorem resendLoop_sends : ∀ (n : Nat) (s : AState) (i : Int),
    sentOf (resendLoop s i n).2 =
      ((intRange i n).filter (fun j => ! s.A_acked (j % SEQSPACE))).map
        (fun j => s.A_window (j % SEQSPACE)) := by
  intro n
  induction n with
  | zero => intro s i; simp [resendLoop, intRange, sentOf]
  | succ n ih =>
    intro s i
    rw [resendLoop_snd_succ]
    simp only [intRange]
    split_ifs with h htm
    · have hih := ih { s with A_timer_running := upd s.A_timer_running (i % SEQSPACE) true,
                              packets_resent := s.packets_resent + 1 } (i + 1)
      simp only [sentOf] at hih ⊢
      simp [h, hih]
    · have hih := ih { s with A_timer_running := upd s.A_timer_running (i % SEQSPACE) true,
                              packets_resent := s.packets_resent + 1 } (i + 1)
      simp only [sentOf] at hih ⊢
      simp [h, hih]
    · have h' : s.A_acked (i % SEQSPACE) = true := by simpa using h
      have hih := ih s (i + 1)
      simp only [sentOf] at hih ⊢
      simp [h', hih]

theorem AInv_init : AInv Ainit := by
  refine ⟨by simp [Ainit], by simp [Ainit, WINDOWSIZE], ?_⟩
  intro r h
  exact absurd h (by simp [Ainit])

theorem AInv_output (s : AState) (m : Msg) (h : AInv s) : AInv (A_output s m).1 := by
  obtain ⟨h1, h2, h3⟩ := h
  simp only [A_output]
  split_ifs with hw ht
  · refine ⟨by show 0 ≤ s.A_nextseq + 1 - s.A_base; omega, ?_, ?_⟩
    · show s.A_nextseq + 1 - s.A_base ≤ WINDOWSIZE
      simp only [WINDOWSIZE] at hw ⊢
      omega
    · intro r hr
      show ∃ i : Int, s.A_base ≤ i ∧ i < s.A_nextseq + 1 ∧ r = i % SEQSPACE
      have hr' : upd s.A_acked (s.A_nextseq % SEQSPACE) false r = true := hr
      by_cases hre : r = s.A_nextseq % SEQSPACE
      · rw [hre, upd_same] at hr'; cases hr'
      · rw [upd_ne _ _ hre] at hr'
        obtain ⟨i, hi1, hi2, hi3⟩ := h3 r hr'
        exact ⟨i, hi1, by omega, hi3⟩
  · refine ⟨by show 0 ≤ s.A_nextseq + 1 - s.A_base; omega, ?_, ?_⟩
    · show s.A_nextseq + 1 - s.A_base ≤ WINDOWSIZE
      simp only [WINDOWSIZE] at hw ⊢
      omega
    · intro r hr
      show ∃ i : Int, s.A_base ≤ i ∧ i < s.A_nextseq + 1 ∧ r = i % SEQSPACE
      have hr' : upd s.A_acked (s.A_nextseq % SEQSPACE) false r = true := hr
      by_cases hre : r = s.A_nextseq % SEQSPACE
      · rw [hre, upd_same] at hr'; cases hr'
      · rw [upd_ne _ _ hre] at hr'
        obtain ⟨i, hi1, hi2, hi3⟩ := h3 r hr'
        exact ⟨i, hi1, by omega, hi3⟩
  · exact ⟨h1, h2, h3⟩

theorem AInv_accept (s : AState) (ack : Int) (h : AInv s)
    (hin : ∃ i : Int, s.A_base ≤ i ∧ i < s.A_nextseq ∧ ack = i % SEQSPACE) :
    0 ≤ s.A_nextseq - (slide (upd s.A_acked ack true) s.A_base SEQSPACE.toNat).2 ∧
    s.A_nextseq - (slide (upd s.A_acked ack true) s.A_base SEQSPACE.toNat).2 ≤ WINDOWSIZE ∧
    ∀ r, (slide (upd s.A_acked ack true) s.A_base SEQSPACE.toNat).1 r = true →
      ∃ i : Int, (slide (upd s.A_acked ack true) s.A_base SEQSPACE.toNat).2 ≤ i ∧
        i < s.A_nextseq ∧ r = i % SEQSPACE := by
  obtain ⟨h1, h2, h3⟩ := h
  obtain ⟨i0, hi0a, hi0b, hi0c⟩ := hin
  have hwf : ∀ r, (upd s.A_acked ack true) r = true →
      ∃ i : Int, s.A_base ≤ i ∧ i < s.A_nextseq ∧ r = i % SEQSPACE := by
    intro r hr
    by_cases hre : r = ack
    · exact ⟨i0, hi0a, hi0b, by rw [hre]; exact hi0c⟩
    · rw [upd_ne _ _ hre] at hr
      exact h3 r hr
  have h2' : s.A_nextseq - s.A_base ≤ 7 := by
    simp only [WINDOWSIZE] at h2; omega
  obtain ⟨hb, hw⟩ := slide_wf SEQSPACE.toNat (upd s.A_acked ack true) s.A_base s.A_nextseq
    (by omega) h2' hwf
  have hmono := slide_base_le SEQSPACE.toNat (upd s.A_acked ack true) s.A_base
  refine ⟨by omega, ?_, hw⟩
  simp only [WINDOWSIZE] at h2 ⊢
  omega

theorem AInv_input (s : AState) (p : Pkt) (h : AInv s) : AInv (A_input s p).1 := by
  have hInv := h
  obtain ⟨h1, h2, h3⟩ := h
  simp only [A_input]
  split_ifs with hc hs ha htm
  · exact ⟨h1, h2, h3⟩
  · exact ⟨h1, h2, h3⟩
  · have hnb : s.A_base + ((s.A_nextseq - s.A_base).toNat : Int) = s.A_nextseq := by omega
    obtain ⟨i0, hi0a, hi0b, hi0c⟩ := (scanMatch_iff _ _ _).mp hs
    rw [hnb] at hi0b
    exact AInv_accept s p.acknum hInv ⟨i0, hi0a, hi0b, hi0c⟩
  · have hnb : s.A_base + ((s.A_nextseq - s.A_base).toNat : Int) = s.A_nextseq := by omega
    obtain ⟨i0, hi0a, hi0b, hi0c⟩ := (scanMatch_iff _ _ _).mp hs
    rw [hnb] at hi0b
    exact AInv_accept s p.acknum hInv ⟨i0, hi0a, hi0b, hi0c⟩
  · exact ⟨h1, h2, h3⟩

theorem AInv_timeout (s : AState) (h : AInv s) : AInv (A_timerinterrupt s).1 := by
  obtain ⟨hf1, hf2, _, hf4⟩ := resendLoop_frame (s.A_nextseq - s.A_base).toNat s s.A_base
  obtain ⟨h1, h2, h3⟩ := h
  simp only [A_timerinterrupt]
  refine ⟨?_, ?_, ?_⟩
  · rw [hf1, hf2]; exact h1
  · rw [hf1, hf2]; exact h2
  · intro r hr
    rw [hf4] at hr
    rw [hf1, hf2]
    exact h3 r hr

theorem AInv_step (s : AState) (op : AOp) (h : AInv s) : AInv (Astep s op).1 := by
  cases op with
  | output m => exact AInv_output s m h
  | input p => exact AInv_input s p h
  | timeout => exact AInv_timeout s h

theorem AInv_run : ∀ (ops : List AOp) (s : AState), AInv s → AInv (Arun s ops) := by
  intro ops
  induction ops with
  | nil => intro s h; exact h
  | cons op ops ih =>
    intro s h
    exact ih (Astep s op).1 (AInv_step s op h)

theorem foldl_add_emod_sum : ∀ (n : Nat) (f : Nat → Int) (c : Int),
    (List.range n).foldl (fun sum i => sum + f i) c = c + ∑ i in Finset.range n, f i := by
  intro n
  induction n with
  | zero => intro f c; simp
  | succ n ih =>
    intro f c
    rw [List.range_succ, List.foldl_append, ih, Finset.sum_range_succ]
    simp only [List.foldl]
    ring

/-- C7: ComputeChecksum of a packet is seqnum + acknum + the sum of its 20
payload bytes taken as unsigned byte values in [0, 256), and IsCorrupted
holds exactly when the stored checksum differs from the recomputed one
(both are pure Lean functions, side effects cannot arise). -/
theorem checksum_formula_and_corruption_iff (p : Pkt) :
    ComputeChecksum p = p.seqnum + p.acknum + ∑ i in Finset.range 20, (p.payload i) % 256 ∧
    (∀ i : Nat, 0 ≤ (p.payload i) % 256 ∧ (p.payload i) % 256 < 256) ∧
    (IsCorrupted p = true ↔ p.checksum ≠ ComputeChecksum p) := by
  refine ⟨?_, ?_, ?_⟩
  · rw [ComputeChecksum]
    exact foldl_add_emod_sum 20 (fun i => p.payload i % 256) (p.seqnum + p.acknum)
  · intro i
    constructor
    · exact Int.emod_nonneg _ (by norm_num)
    · exact Int.emod_lt_of_pos _ (by norm_num)
  · rw [IsCorrupted]
    split_ifs with h
    · simp [h]
    · simp [h]

/-- C3: starting from A_init, after any sequence of A_output, A_input and
A_timerinterrupt calls the sender satisfies
0 ≤ A_nextseq − A_base ≤ WINDOWSIZE, and one further call of any entry
point never decreases A_base or A_nextseq. -/
theorem A_window_bound_and_monotone (ops : List AOp) :
    (0 ≤ (Arun Ainit ops).A_nextseq - (Arun Ainit ops).A_base ∧
      (Arun Ainit ops).A_nextseq - (Arun Ainit ops).A_base ≤ WINDOWSIZE) ∧
    ∀ op : AOp, (Arun Ainit ops).A_base ≤ (Astep (Arun Ainit ops) op).1.A_base ∧
      (Arun Ainit ops).A_nextseq ≤ (Astep (Arun Ainit ops) op).1.A_nextseq := by
  have hInv := AInv_run ops Ainit AInv_init
  refine ⟨⟨hInv.1, hInv.2.1⟩, ?_⟩
  intro op
  cases op with
  | output m => exact A_output_mono _ m
  | input p => exact A_input_mono _ p
  | timeout =>
    obtain ⟨hf1, hf2, _, _⟩ := resendLoop_frame
      ((Arun Ainit ops).A_nextseq - (Arun Ainit ops).A_base).toNat
      (Arun Ainit ops) (Arun Ainit ops).A_base
    exact ⟨le_of_eq hf1.symm, le_of_eq hf2.symm⟩

/-- C6: A_timerinterrupt retransmits, unchanged and in order, exactly the
buffered packets whose logical sequence numbers lie in [A_base, A_nextseq)
and whose slots are not acked, sets the timer flag of each such slot, and
modifies neither A_base, A_nextseq, any buffered packet nor any acked
flag (so an acked packet is never retransmitted). -/
theorem A_timerinterrupt_resends_exactly_unacked (s : AState) :
    (A_timerinterrupt s).1.A_base = s.A_base ∧
    (A_timerinterrupt s).1.A_nextseq = s.A_nextseq ∧
    (A_timerinterrupt s).1.A_window = s.A_window ∧
    (A_timerinterrupt s).1.A_acked = s.A_acked ∧
    sentOf (A_timerinterrupt s).2 =
      ((intRange s.A_base (s.A_nextseq - s.A_base).toNat).filter
        (fun j => ! s.A_acked (j % SEQSPACE))).map (fun j => s.A_window (j % SEQSPACE)) ∧
    (∀ j : Int, s.A_base ≤ j → j < s.A_nextseq → s.A_acked (j % SEQSPACE) = false →
      (A_timerinterrupt s).1.A_timer_running (j % SEQSPACE) = true) := by
  obtain ⟨hf1, hf2, hf3, hf4⟩ := resendLoop_frame (s.A_nextseq - s.A_base).toNat s s.A_base
  refine ⟨hf1, hf2, hf3, hf4, resendLoop_sends _ s s.A_base, ?_⟩
  intro j h1 h2 h3
  exact resendLoop_sets_timer _ s s.A_base j h1 (by omega) h3

/-- C1: from B_init, over every sequence of B_input calls with arbitrary
packets (any reordering, duplication or corruption the channel produces),
the logical positions at which payloads are handed to tolayer5 are exactly
0, 1, ..., n−1 in this order: every logical sequence number is delivered
exactly once, strictly increasing, contiguous, no gaps, no duplicates. -/
theorem B_delivery_in_order_exactly_once (ps : List Pkt) :
    ((Brun Binit ps).2).map Prod.fst = intRange 0 ((Brun Binit ps).2).length ∧
    (Brun Binit ps).1.B_base = ((Brun Binit ps).2).length := by
  obtain ⟨h1, h2⟩ := Brun_positions ps Binit
  have hb : Binit.B_base = 0 := rfl
  rw [hb] at h1 h2
  constructor
  · exact h2
  · rw [h1]; ring

/-- C5: with room in the window, A_output builds a packet with
seqnum = A_nextseq mod SEQSPACE, acknum = NOTINUSE, the payload copied from
the message and a checksum computed over the packet, stores it in slot
seqnum with the acked flag cleared, transmits exactly it, and increments
A_nextseq; with the window full it leaves A_base, A_nextseq and every slot
(packets, acked flags, timer flags) unchanged, transmits nothing, and
increments window_full by exactly one. -/
theorem A_output_send_or_drop :
    (∀ (s : AState) (m : Msg), s.A_nextseq < s.A_base + WINDOWSIZE →
      ∃ p : Pkt, sentOf (A_output s m).2 = [p] ∧
        p.seqnum = s.A_nextseq % SEQSPACE ∧ p.acknum = NOTINUSE ∧ p.payload = m.data ∧
        p.checksum = ComputeChecksum p ∧
        (A_output s m).1.A_window (s.A_nextseq % SEQSPACE) = p ∧
        (A_output s m).1.A_acked (s.A_nextseq % SEQSPACE) = false ∧
        (A_output s m).1.A_nextseq = s.A_nextseq + 1 ∧
        (A_output s m).1.A_base = s.A_base ∧
        (A_output s m).1.window_full = s.window_full) ∧
    (∀ (s : AState) (m : Msg), ¬ s.A_nextseq < s.A_base + WINDOWSIZE →
      (A_output s m).1.A_base = s.A_base ∧
      (A_output s m).1.A_nextseq = s.A_nextseq ∧
      (A_output s m).1.A_window = s.A_window ∧
      (A_output s m).1.A_acked = s.A_acked ∧
      (A_output s m).1.A_timer_running = s.A_timer_running ∧
      (A_output s m).1.window_full = s.window_full + 1 ∧
      sentOf (A_output s m).2 = []) := by
  constructor
  · intro s m hw
    refine ⟨⟨s.A_nextseq % SEQSPACE, NOTINUSE,
      ComputeChecksum ⟨s.A_nextseq % SEQSPACE, NOTINUSE, 0, m.data⟩, m.data⟩, ?_⟩
    simp only [A_output, if_pos hw]
    split_ifs with ht
    · simp [sentOf, upd]
      rfl
    · simp [sentOf, upd]
      rfl
  · intro s m hw
    simp only [A_output, if_neg hw]
    simp [sentOf]

/-- C4: A_input discards a corrupted acknowledgment with no state change
and no emulator call; an uncorrupted acknowledgment whose number matches a
logical sequence number in [A_base, A_nextseq) modulo SEQSPACE and whose
slot is not already acked has its slot marked, its timer stopped exactly
when one was active for that slot, and A_base then slides over the maximal
contiguous run of acked slots starting at A_base (over the marked flag
array), clearing every flag it passes; and in the concrete reorder
scenario the acknowledgment for 1 arriving before 0's leaves A_base at 0
with slot 1 marked, after which the acknowledgment for 0 moves A_base
directly to 2. -/
theorem A_input_ack_handling :
    (∀ (s : AState) (p : Pkt), IsCorrupted p = true → A_input s p = (s, [])) ∧
    (∀ (s : AState) (p : Pkt), IsCorrupted p = false →
      (∃ i : Int, s.A_base ≤ i ∧ i < s.A_nextseq ∧ p.acknum = i % SEQSPACE) →
      s.A_acked p.acknum = false →
      ((A_input s p).1.A_timer_running p.acknum = false ∧
       (s.A_timer_running p.acknum = true → (A_input s p).2 = [AEv.stop]) ∧
       (s.A_timer_running p.acknum = false → (A_input s p).2 = []) ∧
       (A_input s p).1.A_nextseq = s.A_nextseq ∧
       ∃ k : Int, 0 ≤ k ∧ k ≤ SEQSPACE ∧ (A_input s p).1.A_base = s.A_base + k ∧
         (∀ j : Int, 0 ≤ j → j < k →
           upd s.A_acked p.acknum true ((s.A_base + j) % SEQSPACE) = true) ∧
         (k < SEQSPACE → upd s.A_acked p.acknum true ((s.A_base + k) % SEQSPACE) = false) ∧
         (∀ j : Int, 0 ≤ j → j < k →
           (A_input s p).1.A_acked ((s.A_base + j) % SEQSPACE) = false))) ∧
    ((A_input (Arun Ainit twoOuts) (mkAck 1)).1.A_base = 0 ∧
     (A_input (Arun Ainit twoOuts) (mkAck 1)).1.A_acked 1 = true ∧
     (A_input (A_input (Arun Ainit twoOuts) (mkAck 1)).1 (mkAck 0)).1.A_base = 2) := by
  refine ⟨?_, ?_, by decide, by decide, by decide⟩
  · intro s p hc
    simp [A_input, hc]
  · intro s p hc hin ha
    have hnb : s.A_base + ((s.A_nextseq - s.A_base).toNat : Int) = s.A_nextseq := by
      obtain ⟨i, hi1, hi2, _⟩ := hin
      omega
    have hsm : scanMatch p.acknum s.A_base (s.A_nextseq - s.A_base).toNat = true := by
      rw [scanMatch_iff]
      obtain ⟨i, hi1, hi2, hi3⟩ := hin
      exact ⟨i, hi1, by omega, hi3⟩
    obtain ⟨k, hk0, hk7, hbase, hrun, hmax, hclr⟩ :=
      slide_char SEQSPACE.toNat (upd s.A_acked p.acknum true) s.A_base (by decide)
    have hcast : ((SEQSPACE.toNat : Nat) : Int) = SEQSPACE := by decide
    simp only [A_input, hc, hsm, ha, Bool.false_eq_true, if_false, if_true, ite_true, ite_false]
    split_ifs with htm
    · refine ⟨by simp [upd], fun _ => rfl, ?_, rfl, k, hk0, by omega, hbase, hrun, ?_, hclr⟩
      · intro hf
        rw [hf] at htm
        cases htm
      · intro hlt
        exact hmax (by omega)
    · refine ⟨by simpa using htm, ?_, fun _ => rfl, rfl, k, hk0, by omega, hbase, hrun, ?_, hclr⟩
      · intro ht2
        exact absurd ht2 htm
      · intro hlt
        exact hmax (by omega)

/-- Concrete instantiation of A_input_ack_handling: the state after two
submissions receiving the acknowledgment for sequence number 1. -/
theorem A_input_ack_handling_witness :
    IsCorrupted (mkAck 1) = false ∧
    (∃ i : Int, (Arun Ainit twoOuts).A_base ≤ i ∧ i < (Arun Ainit twoOuts).A_nextseq ∧
      (mkAck 1).acknum = i % SEQSPACE) ∧
    (Arun Ainit twoOuts).A_acked (mkAck 1).acknum = false ∧
    (A_input (Arun Ainit twoOuts) (mkAck 1)).1.A_timer_running (mkAck 1).acknum = false :=
  ⟨by decide, ⟨1, by decide, by decide, by decide⟩, by decide,
   (A_input_ack_handling.2.1 (Arun Ainit twoOuts) (mkAck 1) (by decide)
     ⟨1, by decide, by decide, by decide⟩ (by decide)).1⟩

/-- C8: when B_input receives a corrupted packet or one whose sequence
number is outside [B_base, B_base + WINDOWSIZE) modulo SEQSPACE, it never
buffers the packet and never sets a received flag, and the acknowledgment
it sends carries acknum = (B_base − 1) mod SEQSPACE, which equals
SEQSPACE − 1 when B_base = 0. -/
theorem B_input_reject_reacks_last_inorder (s : BState) (p : Pkt)
    (h : IsCorrupted p = true ∨ scanMatch p.seqnum s.B_base WINDOWSIZE.toNat = false) :
    (∀ r : Int, (B_input s p).1.B_received r = true → s.B_received r = true) ∧
    (B_input s p).1.B_buffer = s.B_buffer ∧
    (B_input s p).2.1 = [mkAck ((s.B_base - 1) % SEQSPACE)] ∧
    (s.B_base = 0 → (B_input s p).2.1 = [mkAck (SEQSPACE - 1)]) := by
  have hcond : ¬ (IsCorrupted p = false ∧
      scanMatch p.seqnum s.B_base WINDOWSIZE.toNat = true) := by
    intro hx
    rcases h with h | h
    · rw [h] at hx
      exact Bool.noConfusion hx.1
    · rw [h] at hx
      exact Bool.noConfusion hx.2
  simp only [B_input, if_neg hcond]
  obtain ⟨_, _, hbuf, hrec⟩ := B_drain_spec SEQSPACE.toNat s
  split_ifs with h0
  · refine ⟨hrec, hbuf, ?_, fun _ => rfl⟩
    have e : ((0 : Int) - 1) % SEQSPACE = SEQSPACE - 1 := by decide
    rw [h0, e]
  · exact ⟨hrec, hbuf, rfl, fun he => absurd he h0⟩

/-- Concrete instantiation of B_input_reject_reacks_last_inorder: a
corrupted packet at the initial receiver state is answered with an
acknowledgment for (B_base − 1) mod SEQSPACE = SEQSPACE − 1. -/
theorem B_input_reject_reacks_last_inorder_witness :
    (IsCorrupted badPkt = true ∨
      scanMatch badPkt.seqnum Binit.B_base WINDOWSIZE.toNat = false) ∧
    (B_input Binit badPkt).2.1 = [mkAck ((Binit.B_base - 1) % SEQSPACE)] :=
  ⟨Or.inl (by decide),
   (B_input_reject_reacks_last_inorder Binit badPkt (Or.inl (by decide))).2.2.1⟩

/-- C10: every B_input invocation transmits exactly one acknowledgment
packet, on every path (accepted, duplicate, corrupted or out-of-window),
and it carries seqnum = NOTINUSE, an all-zero 20-byte payload, and a
checksum field equal to ComputeChecksum of the acknowledgment itself, so an
acknowledgment that is not mutated in transit is never classified as
corrupted by IsCorrupted. -/
theorem B_input_always_one_wellformed_ack (s : BState) (p : Pkt) :
    ∃ a : Pkt, (B_input s p).2.1 = [a] ∧ a.seqnum = NOTINUSE ∧
      a.payload = (fun _ => (0 : Int)) ∧ a.checksum = ComputeChecksum a ∧
      IsCorrupted a = false := by
  have hmk : ∀ x : Int, (mkAck x).checksum = ComputeChecksum (mkAck x) := fun _ => rfl
  have hic : ∀ x : Int, IsCorrupted (mkAck x) = false := by
    intro x
    simp only [IsCorrupted]
    rw [if_pos (hmk x)]
  simp only [B_input]
  split_ifs with h1 h2 h3
  · exact ⟨mkAck p.seqnum, rfl, rfl, rfl, hmk _, hic _⟩
  · exact ⟨mkAck p.seqnum, rfl, rfl, rfl, hmk _, hic _⟩
  · exact ⟨mkAck (SEQSPACE - 1), rfl, rfl, rfl, hmk _, hic _⟩
  · exact ⟨mkAck ((s.B_base - 1) % SEQSPACE), rfl, rfl, rfl, hmk _, hic _⟩

/-- C2 evidence: src/sr.c addresses its WINDOWSIZE-sized slot arrays with
indices taken modulo SEQSPACE (sender) and with the raw sequence number
(receiver), not modulo the slot count WINDOWSIZE.  After six submissions
and the acknowledgment for sequence 0, a seventh A_output passes the window
check and stores through slot index A_nextseq % SEQSPACE = 6 = WINDOWSIZE,
which is outside [0, WINDOWSIZE); on the C arrays of length WINDOWSIZE this
reachable access is out of bounds (the total-map model records the write at
index 6). -/
theorem A_output_slot_index_out_of_window :
    (Arun Ainit oobTrace).A_nextseq < (Arun Ainit oobTrace).A_base + WINDOWSIZE ∧
    (Arun Ainit oobTrace).A_nextseq % SEQSPACE = WINDOWSIZE ∧
    ¬ (Arun Ainit oobTrace).A_nextseq % SEQSPACE < WINDOWSIZE ∧
    ((A_output (Arun Ainit oobTrace) mZero).1.A_window WINDOWSIZE).seqnum = WINDOWSIZE := by
  refine ⟨by decide, by decide, by decide, by decide⟩

/-- C9 evidence: A_output guards starttimer only on the per-slot flag
A_timer_running[seq], which is clear for every fresh slot, so two
back-to-back submissions after A_init both call starttimer and the second
start is issued while the single shared timer is already running. -/
theorem starttimer_called_while_running :
    badStart false (ArunTrace Ainit twoOuts).2 = true := by
  decide

/-- Concrete instantiation of A_output_send_or_drop: the first submission
at A_init is accepted, and the seventh submission with the window full only
increments the window_full counter. -/
theorem A_output_send_or_drop_witness :
    (Ainit.A_nextseq < Ainit.A_base + WINDOWSIZE ∧
      ∃ p : Pkt, sentOf (A_output Ainit mZero).2 = [p] ∧
        p.seqnum = Ainit.A_nextseq % SEQSPACE ∧ p.acknum = NOTINUSE ∧ p.payload = mZero.data ∧
        p.checksum = ComputeChecksum p ∧
        (A_output Ainit mZero).1.A_window (Ainit.A_nextseq % SEQSPACE) = p ∧
        (A_output Ainit mZero).1.A_acked (Ainit.A_nextseq % SEQSPACE) = false ∧
        (A_output Ainit mZero).1.A_nextseq = Ainit.A_nextseq + 1 ∧
        (A_output Ainit mZero).1.A_base = Ainit.A_base ∧
        (A_output Ainit mZero).1.window_full = Ainit.window_full) ∧
    (¬ (Arun Ainit sixOuts).A_nextseq < (Arun Ainit sixOuts).A_base + WINDOWSIZE ∧
      (A_output (Arun Ainit sixOuts) mZero).1.window_full =
        (Arun Ainit sixOuts).window_full + 1) :=
  ⟨⟨by decide, A_output_send_or_drop.1 Ainit mZero (by decide)⟩,
   ⟨by decide, (A_output_send_or_drop.2 (Arun Ainit sixOuts) mZero (by decide)).2.2.2.2.2.1⟩⟩

/-- Concrete instantiation of A_timerinterrupt_resends_exactly_unacked at
the state reached after two submissions. -/
theorem A_timerinterrupt_resends_exactly_unacked_witness :
    (A_timerinterrupt (Arun Ainit twoOuts)).1.A_base = (Arun Ainit twoOuts).A_base ∧
    sentOf (A_timerinterrupt (Arun Ainit twoOuts)).2 =
      ((intRange (Arun Ainit twoOuts).A_base
          ((Arun Ainit twoOuts).A_nextseq - (Arun Ainit twoOuts).A_base).toNat).filter
        (fun j => ! (Arun Ainit twoOuts).A_acked (j % SEQSPACE))).map
        (fun j => (Arun Ainit twoOuts).A_window (j % SEQSPACE)) :=
  ⟨(A_timerinterrupt_resends_exactly_unacked (Arun Ainit twoOuts)).1,
   (A_timerinterrupt_resends_exactly_unacked (Arun Ainit twoOuts)).2.2.2.2.1⟩
